import Mathlib

/-!
Shallow embedding of `okta_aws_login.py`, a tool that logs into an Okta
IdP, extracts a SAML assertion, exchanges it for temporary AWS
credentials and writes them to the AWS credentials file.  Pure fragments
of the Python source are translated as Lean functions; the HTML pages,
files and network responses a run observes are passed in explicitly as
oracle data.
-/

namespace OktaAwsLogin

/-! ### String helpers

The Python `sub in s` substring test and `str.lower`, modelled on the
character lists underlying `String`. -/

/-- True exactly when the first list is an initial segment of the second. -/
def charsLead : List Char → List Char → Bool
  | [], _ => true
  | _ :: _, [] => false
  | a :: as, b :: bs => a == b && charsLead as bs

/-- True when the first list occurs contiguously inside the second
(Python `a in b` on strings). -/
def charsSub (a : List Char) : List Char → Bool
  | [] => a.isEmpty
  | c :: cs => charsLead a (c :: cs) || charsSub a cs

/-- Python `sub in s` for strings. -/
def strContainsSub (s sub : String) : Bool := charsSub sub.data s.data

/-- Python `s.lower()` restricted to ASCII case mapping. -/
def pyLower (s : String) : String := String.mk (s.data.map Char.toLower)

/-! ### Python dict as an insertion-ordered association list

Assigning to an existing key updates it in place; a new key is appended. -/

/-- Assignment `d[k] = v` on a Python dict modelled as an ordered association list. -/
def dictInsert (d : List (String × String)) (k v : String) :
    List (String × String) :=
  if d.any (fun p => p.1 = k) then
    d.map (fun p => if p.1 = k then (k, v) else p)
  else d ++ [(k, v)]

/-- Lookup `d.get(k)`: the value stored at `k`, if any. -/
def dictGet (d : List (String × String)) (k : String) : Option String :=
  match d.find? (fun p => p.1 = k) with
  | some p => some p.2
  | none => none

/-! ### HTML input tags and the login-form payload
(`okta_password_login`, lines 73–83) -/

/-- An HTML `<input>` tag as BeautifulSoup presents it: the `name` and
`value` attributes may each be absent (`tag.get` returns `None`). -/
structure InputTag where
  name : Option String
  value : Option String
deriving DecidableEq, Repr

/-- The value the loop body of `okta_password_login` assigns for one
input tag: names containing `"user"` (case-insensitively) get the
username, otherwise names containing `"pass"` get the password,
otherwise the existing `value` attribute (defaulting to `""`). -/
def classifyField (username password : String) (tag : InputTag) : String :=
  let name := tag.name.getD ""
  if strContainsSub (pyLower name) "user" then username
  else if strContainsSub (pyLower name) "pass" then password
  else tag.value.getD ""

/-- One iteration of the payload-building loop: `payload[name] = ...`. -/
def payloadStep (username password : String)
    (d : List (String × String)) (tag : InputTag) :
    List (String × String) :=
  dictInsert d (tag.name.getD "") (classifyField username password tag)

/-- The full payload dict built from the input tags of the login page
(lines 72–83 of the source). -/
def buildPayload (username password : String) (inputs : List InputTag) :
    List (String × String) :=
  inputs.foldl (payloadStep username password) []

/-! ### Session-id cache file (`write_sid_file`, `get_sid_from_file`)

A file is `none` (absent) or `some (content, mode)`.  `write_sid_file`
opens with `O_WRONLY|O_CREAT` — and no `O_TRUNC` — so it overwrites the
first `|sid|` characters in place and keeps any longer tail; the
permission bits `0o600` take effect only when the file is created. -/

/-- State of the sid cache file: absent, or content plus permission bits. -/
abbrev FileState := Option (String × Nat)

/-- The function `write_sid_file` (lines 107–111): `os.open(path, O_WRONLY|O_CREAT,
mode=0o600)` then `os.write` of the sid at offset 0. -/
def write_sid_file (fs : FileState) (sid : String) : FileState :=
  match fs with
  | none => some (sid, 0o600)
  | some (c, m) => some (sid ++ String.mk (c.data.drop sid.length), m)

/-- The function `get_sid_from_file` (lines 214–222): read the file if it exists and
return the content only when its length is exactly 25. -/
def get_sid_from_file (file : Option String) : Option String :=
  match file with
  | none => none
  | some c => if c.length = 25 then some c else none

/-! ### SAML assertion extraction (`get_saml_assertion`, lines 127–136)

The loop returns on the first input tag whose `name` attribute equals
`"SAMLResponse"`, yielding the `value` attribute of that tag — which may
itself be absent, in which case Python returns `None`. -/

/-- The function `get_saml_assertion` over the parsed input tags of a response. -/
def get_saml_assertion (inputs : List InputTag) : Option String :=
  match inputs.find? (fun t => t.name == some "SAMLResponse") with
  | some t => t.value
  | none => none

/-! ### ARN extraction (`get_arns_from_assertion`, lines 138–158)

The XML walk is modelled on the parsed attribute list: each SAML
`Attribute` element has a `Name` and a list of `AttributeValue` texts.
The nested loops rebind `arns` on every matching value, so the last
value of the last matching attribute wins; `arns` stays unbound
(a Python `NameError`) when no matching value exists, and the
`split(',')[1]` indexing faults when the split has fewer than two
parts — both are modelled as `none`. -/

/-- A SAML `Attribute` element: its `Name` and its `AttributeValue`
children, as texts in document order. -/
structure SamlAttribute where
  name : String
  values : List String
deriving DecidableEq, Repr

/-- The fixed role-attribute URN the code compares against. -/
def role_url : String := "https://aws.amazon.com/SAML/Attributes/Role"

/-- Helper for the Python `s.split(',')`: split the remaining characters,
accumulating the current piece in reverse. -/
def splitCommaAux : List Char → List Char → List (List Char)
  | [], cur => [cur.reverse]
  | c :: cs, cur =>
    if c == ',' then cur.reverse :: splitCommaAux cs []
    else splitCommaAux cs (c :: cur)

/-- Python `s.split(',')`: always returns at least one piece. -/
def pySplitComma (s : String) : List String :=
  (splitCommaAux s.data []).map String.mk

/-- The value `arns` holds after the nested loops of
`get_arns_from_assertion`: rebinding on each value of each attribute
named `role_url`, so the last such value wins; `none` when never bound. -/
def findArns (attrs : List SamlAttribute) : Option String :=
  attrs.foldl
    (fun acc a =>
      if a.name = role_url then a.values.foldl (fun _ v => some v) acc
      else acc)
    none

/-- The dict `get_arns_from_assertion` returns. -/
structure ArnDict where
  RoleArn : String
  PrincipalArn : String
  SAMLAssertion : String
deriving DecidableEq, Repr

/-- The function `get_arns_from_assertion` on the parsed attributes of the decoded
assertion; `assertion` is the still-encoded token stored in the result.
`none` models an uncaught Python fault (`NameError` / `IndexError`). -/
def get_arns_from_assertion (attrs : List SamlAttribute)
    (assertion : String) : Option ArnDict :=
  match findArns attrs with
  | none => none
  | some arns =>
    let parts := pySplitComma arns
    match parts.get? 1 with
    | none => none
    | some second =>
      some { RoleArn := second, PrincipalArn := parts.getD 0 "",
             SAMLAssertion := assertion }

/-! ### Submission URL (`okta_password_login`, lines 65–93)

`urlparse` is modelled for the scheme and netloc components the code
uses: the scheme is the lowercased text before the first `':'` when it
is a letter followed by letters, digits, `'+'`, `'-'` or `'.'`; the
netloc follows a leading `"//"` of the remainder, up to `'/'`, `'?'`
or `'#'`. -/

/-- Characters allowed after the first letter of a URL scheme. -/
def isSchemeChar (c : Char) : Bool :=
  c.isAlphanum || c == '+' || c == '-' || c == '.'

/-- Split a list at the first character satisfying `p`. -/
def takeUntil (p : Char → Bool) : List Char → List Char × List Char
  | [] => ([], [])
  | c :: cs =>
    if p c then ([], c :: cs)
    else
      let r := takeUntil p cs
      (c :: r.1, r.2)

/-- The `(scheme, netloc)` components of the Python
`urllib.parse.urlparse`. -/
def urlparseSchemeNetloc (url : String) : String × String :=
  let cs := url.data
  let split := takeUntil (fun c => c == ':') cs
  let schemeRest : List Char × List Char :=
    match split.2 with
    | ':' :: t =>
      if !split.1.isEmpty && (split.1.headD 'a').isAlpha
          && split.1.all isSchemeChar then
        (split.1, t)
      else ([], cs)
    | _ => ([], cs)
  let netloc :=
    match schemeRest.2 with
    | '/' :: '/' :: t =>
      (takeUntil (fun c => c == '/' || c == '?' || c == '#') t).1
    | _ => []
  (String.mk (schemeRest.1.map Char.toLower), String.mk netloc)

/-- An HTML `<form>` tag: only its `action` attribute matters. -/
structure FormTag where
  action : Option String
deriving DecidableEq, Repr

/-- One iteration of the loop over form tags (lines 86–93): a form
whose `action` attribute is present and non-empty (Python truthiness)
rewrites the submission URL to `scheme://netloc` of the original entry
URL followed by the action; any other form leaves it alone. -/
def submitStep (idp_entry_url cur : String) (f : FormTag) : String :=
  match f.action with
  | none => cur
  | some a =>
    if a = "" then cur
    else
      let p := urlparseSchemeNetloc idp_entry_url
      p.1 ++ "://" ++ p.2 ++ a

/-- The form-submission URL after the loop over form tags, starting
from the redirect-resolved `formresponse.url`. -/
def submitTarget (idp_entry_url formresponse_url : String)
    (forms : List FormTag) : String :=
  forms.foldl (submitStep idp_entry_url) formresponse_url

/-! ### Credential-file writer (`write_aws_creds`, lines 170–187)

A `configparser` state is an ordered list of sections, each an ordered
list of key/value options.  `add_section` appends an empty section;
`set` updates the option in place or appends it. -/

/-- The options of one INI section, in order. -/
abbrev IniSection := List (String × String)

/-- A parsed credentials file: named sections in order. -/
abbrev IniConfig := List (String × IniSection)

/-- Python `config.has_section(s)`. -/
def has_section (c : IniConfig) (s : String) : Bool :=
  c.any (fun p => p.1 = s)

/-- Python `config.add_section(s)`: appends an empty section. -/
def add_section (c : IniConfig) (s : String) : IniConfig :=
  c ++ [(s, [])]

/-- Python `config.set(s, k, v)`: updates option `k` of every section named
`s` (section names are unique in a parsed config). -/
def config_set (c : IniConfig) (s k v : String) : IniConfig :=
  c.map (fun p => if p.1 = s then (p.1, dictInsert p.2 k v) else p)

/-- The function `write_aws_creds` acting on the parsed config state (lines
178–184): create the profile section if absent, then set the five
credential options. -/
def write_aws_creds (c : IniConfig)
    (profile access_key secret_key token region output : String) :
    IniConfig :=
  let c1 := if has_section c profile then c else add_section c profile
  let c2 := config_set c1 profile "output" output
  let c3 := config_set c2 profile "region" region
  let c4 := config_set c3 profile "aws_access_key_id" access_key
  let c5 := config_set c4 profile "aws_secret_access_key" secret_key
  config_set c5 profile "aws_session_token" token

/-! ### Verbose expiry rendering (`main`, lines 307–314)

`valid_duration / timedelta(minutes=1)` divides the microsecond
counts of the two durations exactly (modelled over `Int` rather than the float
Python produces) and `math.ceil` rounds the ratio up. -/

/-- Ceiling division `⌈a / b⌉` for positive `b` (`/` on `Int` is
Euclidean division, which floors for positive divisors). -/
def ceilDivInt (a b : Int) : Int := -((-a) / b)

/-- The minute count printed by the verbose summary, from the remaining
duration in microseconds (`timedelta` resolution):
`math.ceil(valid_duration / timedelta(minutes=1))`. -/
def validMinutes (d_us : Int) : Int := ceilDivInt d_us 60000000

/-! ### The orchestrator (`main`, lines 224–314)

The environment a single run observes is fixed up front: the `--sid`
argument, the cache-file content, the page the cookie login returns,
the password the user types, and the final response of the password
login (its body text, parsed input tags and `sid` cookie).  `main` is
then a pure function from this world to an outcome.  The calls to STS
and the credentials-file write have no failure modes in scope here and
do not affect the outcome; the parsed attributes of whichever
assertion is obtained are supplied as `assertionAttrs` for the
`get_arns_from_assertion` step. -/

/-- Everything a single run of `main` observes from the outside. -/
structure MainWorld where
  argSid : Option String
  cacheFile : Option String
  cookiePageInputs : List InputTag
  password : String
  pwText : String
  pwInputs : List InputTag
  pwSidCookie : Option String
  assertionAttrs : List SamlAttribute

/-- How a run of `main` ends.  The three `exit*` constructors are the
`sys.exit(1)` sites; `fault` is an uncaught Python exception
(`KeyError` on the missing `sid` cookie, `NameError`/`IndexError`
inside `get_arns_from_assertion`); `success` is a normal return from
`main`, i.e. process exit code 0. -/
inductive MainOutcome where
  | exitEmptyPassword
  | exitSignInFailed
  | exitNoAssertion
  | fault
  | success
deriving DecidableEq, Repr

/-- The process exit code of an outcome, when the run does not end in
an uncaught exception. -/
def exitCodeOf : MainOutcome → Option Nat
  | .exitEmptyPassword => some 1
  | .exitSignInFailed => some 1
  | .exitNoAssertion => some 1
  | .fault => none
  | .success => some 0

/-- The common tail of `main` once an assertion is in hand (lines
286–304): decode the ARNs (a fault propagates), call STS and write the
profile (out of scope, no failure modes here), return. -/
def finishWithAssertion (w : MainWorld) (assertion : String) :
    MainOutcome :=
  match get_arns_from_assertion w.assertionAttrs assertion with
  | none => .fault
  | some _ => .success

/-- The password-login path of `main`: `get_user_creds` (exit on empty
password, lines 205–207), `okta_password_login` (exit on the failure
marker, lines 98–100; `KeyError` when the response has no `sid`
cookie, line 104), `get_saml_assertion`, `write_sid_file`, then the
assertion check of lines 283–285. -/
def passwordPathOutcome (w : MainWorld) : MainOutcome :=
  if w.password.length = 0 then .exitEmptyPassword
  else if strContainsSub w.pwText "Sign in failed!" then .exitSignInFailed
  else
    match w.pwSidCookie with
    | none => .fault
    | some _ =>
      match get_saml_assertion w.pwInputs with
      | none => .exitNoAssertion
      | some a => finishWithAssertion w a

/-- The sid used for the cookie login (lines 249–254): the `--sid`
argument if given, else the cached sid (caching is enabled in the
source: `cache_sid = True`). -/
def effectiveSid (w : MainWorld) : Option String :=
  match w.argSid with
  | some s => some s
  | none => get_sid_from_file w.cacheFile

/-- The flow of `main` as a function from the observed world to its outcome,
paired with whether the interactive password-login path ran
(`get_user_creds` was called). -/
def mainRun (w : MainWorld) : MainOutcome × Bool :=
  match effectiveSid w with
  | some _ =>
    match get_saml_assertion w.cookiePageInputs with
    | some a => (finishWithAssertion w a, false)
    | none => (passwordPathOutcome w, true)
  | none => (passwordPathOutcome w, true)

/-- Whether the run takes the interactive password-login path: no sid
is available, or the cookie-login page carries no `SAMLResponse`. -/
def usesPasswordPath (w : MainWorld) : Bool :=
  match effectiveSid w with
  | none => true
  | some _ => (get_saml_assertion w.cookiePageInputs).isNone

/-- The assertion available after whichever login path ran (provided
no earlier exit pre-empted it). -/
def finalAssertion (w : MainWorld) : Option String :=
  if usesPasswordPath w then get_saml_assertion w.pwInputs
  else get_saml_assertion w.cookiePageInputs

/-! ## Theorems -/

/-- Claim C8: the minute count of the verbose summary is the remaining duration
rounded up to the next whole minute: it is the least integer `n` with
`n` minutes at least the remaining duration `d` (in microseconds,
`timedelta` resolution), and in particular 90 s and 120 s both render
as 2 minutes. -/
theorem validMinutes_is_round_up (d : Int) :
    d ≤ validMinutes d * 60000000 ∧
      (∀ m : Int, d ≤ m * 60000000 → validMinutes d ≤ m) ∧
      validMinutes (90 * 1000000) = 2 ∧ validMinutes (120 * 1000000) = 2 := by
  refine ⟨?_, ?_, by decide, by decide⟩
  · have h := Int.ediv_add_emod (-d) 60000000
    have hr : 0 ≤ (-d) % 60000000 :=
      Int.emod_nonneg _ (by decide)
    unfold validMinutes ceilDivInt
    linarith
  · intro m hm
    unfold validMinutes ceilDivInt
    have h : (-m) ≤ (-d) / 60000000 := by
      rw [Int.le_ediv_iff_mul_le (by decide : (0:Int) < 60000000)]
      linarith
    linarith

/-- Witness for C8 at `d = 90` seconds: 2 minutes is an upper round
and no smaller count than the one the bound from the theorem gives. -/
theorem validMinutes_is_round_up_witness :
    validMinutes (90 * 1000000) ≤ 2 ∧ validMinutes (90 * 1000000) = 2 :=
  ⟨(validMinutes_is_round_up (90 * 1000000)).2.1 2 (by decide),
    (validMinutes_is_round_up (90 * 1000000)).2.2.1⟩

/-- Claim C3: `get_sid_from_file` returns a sid exactly when the file exists
and its content has length 25; for an absent file or content of any
other length it returns `none`. -/
theorem get_sid_from_file_iff (file : Option String) :
    (∀ s, get_sid_from_file file = some s ↔ file = some s ∧ s.length = 25) ∧
      ((file = none ∨ ∃ c, file = some c ∧ c.length ≠ 25) →
        get_sid_from_file file = none) := by
  constructor
  · intro s
    cases file with
    | none => simp [get_sid_from_file]
    | some c =>
      simp only [get_sid_from_file]
      by_cases h : c.length = 25
      · simp [h]
        rintro rfl
        exact h
      · simp [h]
        rintro rfl
        exact fun hc => absurd hc h
  · rintro (rfl | ⟨c, rfl, hc⟩)
    · rfl
    · simp [get_sid_from_file, hc]

/-- Witness for C3 on lengths 24, 25, 26. -/
theorem get_sid_from_file_iff_witness :
    get_sid_from_file (some "abcdefghijklmnopqrstuvwxy") =
        some "abcdefghijklmnopqrstuvwxy" ∧
      get_sid_from_file (some "abcdefghijklmnopqrstuvwx") = none ∧
      get_sid_from_file (some "abcdefghijklmnopqrstuvwxyz") = none :=
  ⟨((get_sid_from_file_iff (some "abcdefghijklmnopqrstuvwxy")).1
      "abcdefghijklmnopqrstuvwxy").mpr ⟨rfl, by decide⟩,
    (get_sid_from_file_iff (some "abcdefghijklmnopqrstuvwx")).2
      (Or.inr ⟨_, rfl, by decide⟩),
    (get_sid_from_file_iff (some "abcdefghijklmnopqrstuvwxyz")).2
      (Or.inr ⟨_, rfl, by decide⟩)⟩

/-- Claim C2 fails as stated: `write_sid_file` opens without truncation, so a
longer pre-existing content keeps its tail beyond the written sid, and
the permission bits are applied only on creation.  Concretely, a
26-character cache file with mode `0o644` written with a 25-character
sid neither ends up equal to the sid nor owner-only. -/
theorem write_sid_file_counterexample :
    ¬ (∀ (fs : FileState) (sid : String),
        write_sid_file fs sid = some (sid, 0o600)) := by
  intro h
  have := h (some ("abcdefghijklmnopqrstuvwxyz", 0o644))
    "0123456789012345678901234"
  exact absurd this (by decide)

/-- Claim C2 amended: after `write_sid_file`, the file exists and its content
starts with the written sid; when the file was absent it is created
with exactly the sid as content and owner-only mode `0o600`; when it
existed with content no longer than the sid, the content becomes
exactly the sid and the prior mode is kept.  In general, prior content
longer than the sid keeps its tail beyond `|sid|` characters
verbatim, and prior permission bits are never changed. -/
theorem write_sid_file_amended (fs : FileState) (sid : String) :
    (∃ tail mode, write_sid_file fs sid = some (sid ++ tail, mode)) ∧
      (fs = none → write_sid_file fs sid = some (sid, 0o600)) ∧
      (∀ c m, fs = some (c, m) → c.length ≤ sid.length →
        write_sid_file fs sid = some (sid, m)) ∧
      (∀ c m, fs = some (c, m) →
        write_sid_file fs sid =
          some (sid ++ String.mk (c.data.drop sid.length), m)) := by
  refine ⟨?_, ?_, ?_, ?_⟩
  · cases fs with
    | none =>
      refine ⟨"", 0o600, ?_⟩
      simp [write_sid_file]
    | some p =>
      exact ⟨String.mk (p.1.data.drop sid.length), p.2, rfl⟩
  · rintro rfl
    rfl
  · rintro c m rfl hlen
    simp only [write_sid_file]
    have hd : c.data.drop sid.length = [] :=
      List.drop_eq_nil_of_le hlen
    rw [hd]
    have : sid ++ String.mk [] = sid := by
      apply String.ext
      simp [String.data_append]
    rw [this]
  · rintro c m rfl
    rfl

/-- Witness for C2 amended: creating the file afresh; overwriting a
25-character file with a 25-character sid; and overwriting a
26-character file with mode `0o644`, which keeps its 26th character
and its prior permission bits. -/
theorem write_sid_file_amended_witness :
    write_sid_file none "0123456789012345678901234" =
        some ("0123456789012345678901234", 0o600) ∧
      write_sid_file (some ("abcdefghijklmnopqrstuvwxy", 0o600))
          "0123456789012345678901234" =
        some ("0123456789012345678901234", 0o600) ∧
      write_sid_file (some ("abcdefghijklmnopqrstuvwxyz", 0o644))
          "0123456789012345678901234" =
        some ("0123456789012345678901234z", 0o644) :=
  ⟨(write_sid_file_amended none "0123456789012345678901234").2.1 rfl,
    (write_sid_file_amended (some ("abcdefghijklmnopqrstuvwxy", 0o600))
        "0123456789012345678901234").2.2.1
      "abcdefghijklmnopqrstuvwxy" 0o600 rfl (by decide),
    ((write_sid_file_amended (some ("abcdefghijklmnopqrstuvwxyz", 0o644))
        "0123456789012345678901234").2.2.2
      "abcdefghijklmnopqrstuvwxyz" 0o644 rfl).trans (by decide)⟩

/-! ### Dict lemmas shared by the payload and credentials-file claims -/

/-- Running `find?` at key `k` over the in-place update at `k` finds the new
pair, provided some pair with key `k` is present. -/
theorem find?_update_same (d : List (String × String)) (k v : String)
    (hany : d.any (fun p => p.1 = k) = true) :
    (d.map fun p => if p.1 = k then (k, v) else p).find?
        (fun q => q.1 = k) = some (k, v) := by
  induction d with
  | nil => cases hany
  | cons p t ih =>
    by_cases hp : p.1 = k
    · rw [List.map_cons, if_pos hp, List.find?_cons_of_pos _ (by simp)]
    · rw [List.map_cons, if_neg hp, List.find?_cons_of_neg _ (by simp [hp])]
      apply ih
      simpa [List.any_cons, hp] using hany

/-- Running `find?` at a key other than `k` ignores the in-place update at `k`. -/
theorem find?_update_ne (d : List (String × String)) (k k' v : String)
    (h : k' ≠ k) :
    (d.map fun p => if p.1 = k then (k, v) else p).find?
        (fun q => q.1 = k') = d.find? (fun q => q.1 = k') := by
  induction d with
  | nil => rfl
  | cons p t ih =>
    by_cases hp : p.1 = k
    · rw [List.map_cons, if_pos hp,
        List.find?_cons_of_neg _ (by simp; exact fun he => h he.symm),
        List.find?_cons_of_neg _ (by
          simp only [decide_eq_true_eq]
          rw [hp]
          exact fun he => h he.symm)]
      exact ih
    · rw [List.map_cons, if_neg hp]
      by_cases hp' : p.1 = k'
      · rw [List.find?_cons_of_pos _ (by simp [hp']),
          List.find?_cons_of_pos _ (by simp [hp'])]
      · rw [List.find?_cons_of_neg _ (by simp [hp']),
          List.find?_cons_of_neg _ (by simp [hp'])]
        exact ih

/-- Looking up the key just inserted yields the inserted value. -/
theorem dictGet_dictInsert_same (d : List (String × String)) (k v : String) :
    dictGet (dictInsert d k v) k = some v := by
  unfold dictInsert dictGet
  by_cases hany : d.any (fun p => p.1 = k) = true
  · rw [if_pos hany, find?_update_same d k v hany]
  · rw [if_neg hany, List.find?_append]
    have h1 : d.find? (fun q => q.1 = k) = none := by
      rw [List.find?_eq_none]
      intro x hx
      simp only [decide_eq_true_eq]
      intro hxk
      exact absurd (List.any_eq_true.mpr ⟨x, hx, by simp [hxk]⟩) hany
    rw [h1]
    simp

/-- Inserting at key `k` leaves lookups of any other key unchanged. -/
theorem dictGet_dictInsert_ne (d : List (String × String)) (k k' v : String)
    (h : k' ≠ k) : dictGet (dictInsert d k v) k' = dictGet d k' := by
  unfold dictInsert dictGet
  by_cases hany : d.any (fun p => p.1 = k) = true
  · rw [if_pos hany, find?_update_ne d k k' v h]
  · rw [if_neg hany, List.find?_append]
    have h1 : [(k, v)].find? (fun q => q.1 = k') = none := by
      simp
      exact fun he => h he.symm
    rw [h1]
    cases d.find? (fun q => q.1 = k') <;> rfl

/-- The payload-building fold never disturbs a key whose name none of
the remaining tags carries. -/
theorem dictGet_foldl_payload_of_not_mem (u p : String) (ts : List InputTag)
    (d : List (String × String)) (n : String)
    (h : ∀ t ∈ ts, t.name.getD "" ≠ n) :
    dictGet (ts.foldl (payloadStep u p) d) n = dictGet d n := by
  induction ts generalizing d with
  | nil => rfl
  | cons t ts ih =>
    rw [List.foldl_cons]
    rw [ih _ (fun t' ht' => h t' (List.mem_cons_of_mem _ ht'))]
    exact dictGet_dictInsert_ne _ _ _ _
      (fun he => (h t (List.mem_cons_self _ _)) he.symm)

/-- With pairwise-distinct field names, the built payload maps the
name of each tag to the value the loop body computes for that tag. -/
theorem dictGet_buildPayload_aux (u p : String) (ts : List InputTag)
    (d : List (String × String)) (tag : InputTag) (htag : tag ∈ ts)
    (hn : (ts.map (fun t => t.name.getD "")).Nodup) :
    dictGet (ts.foldl (payloadStep u p) d) (tag.name.getD "") =
      some (classifyField u p tag) := by
  induction ts generalizing d with
  | nil => cases htag
  | cons t ts ih =>
    rw [List.map_cons, List.nodup_cons] at hn
    rw [List.foldl_cons]
    rcases List.mem_cons.mp htag with rfl | hmem
    · have hnotin : ∀ t' ∈ ts, t'.name.getD "" ≠ tag.name.getD "" := by
        intro t' ht' he
        exact hn.1 (he ▸ List.mem_map_of_mem _ ht')
      rw [dictGet_foldl_payload_of_not_mem u p ts _ _ hnotin]
      exact dictGet_dictInsert_same _ _ _
    · exact ih _ hmem hn.2

/-- Claim C1 fails as stated: a field whose name contains `"pass"` is not
always set to the supplied password — the name `"userpass"` also
contains `"user"`, and the `elif` chain then assigns the username. -/
theorem buildPayload_counterexample :
    ¬ (∀ (u p : String) (inputs : List InputTag) (tag : InputTag),
        tag ∈ inputs →
        strContainsSub (pyLower (tag.name.getD "")) "pass" = true →
        dictGet (buildPayload u p inputs) (tag.name.getD "") = some p) := by
  intro h
  have := h "u" "p" [⟨some "userpass", some ""⟩] ⟨some "userpass", some ""⟩
    (by simp) (by decide)
  exact absurd this (by decide)

/-- Claim C1 amended: over a login form with pairwise-distinct field names,
the payload maps every field whose name contains `"user"`
(case-insensitively) to the username; every field whose name contains
`"pass"` but not `"user"` to the password; and every other field to
its existing value verbatim. -/
theorem buildPayload_classification (u p : String) (inputs : List InputTag)
    (hn : (inputs.map (fun t => t.name.getD "")).Nodup)
    (tag : InputTag) (htag : tag ∈ inputs) :
    (strContainsSub (pyLower (tag.name.getD "")) "user" = true →
      dictGet (buildPayload u p inputs) (tag.name.getD "") = some u) ∧
      (strContainsSub (pyLower (tag.name.getD "")) "user" = false →
        strContainsSub (pyLower (tag.name.getD "")) "pass" = true →
        dictGet (buildPayload u p inputs) (tag.name.getD "") = some p) ∧
      (strContainsSub (pyLower (tag.name.getD "")) "user" = false →
        strContainsSub (pyLower (tag.name.getD "")) "pass" = false →
        dictGet (buildPayload u p inputs) (tag.name.getD "") =
          some (tag.value.getD "")) := by
  have hmain := dictGet_buildPayload_aux u p inputs [] tag htag hn
  refine ⟨fun h1 => ?_, fun h1 h2 => ?_, fun h1 h2 => ?_⟩ <;>
    · rw [buildPayload, hmain]
      simp [classifyField, h1, *]

/-- Witness for the amended C1 on the example form of the spec:
`{username: "", password: "", csrf_token: "abc123"}`. -/
theorem buildPayload_classification_witness :
    dictGet (buildPayload "U" "P"
        [⟨some "username", some ""⟩, ⟨some "password", some ""⟩,
          ⟨some "csrf_token", some "abc123"⟩]) "username" = some "U" ∧
      dictGet (buildPayload "U" "P"
        [⟨some "username", some ""⟩, ⟨some "password", some ""⟩,
          ⟨some "csrf_token", some "abc123"⟩]) "password" = some "P" ∧
      dictGet (buildPayload "U" "P"
        [⟨some "username", some ""⟩, ⟨some "password", some ""⟩,
          ⟨some "csrf_token", some "abc123"⟩]) "csrf_token" =
        some "abc123" :=
  ⟨(buildPayload_classification "U" "P" _ (by decide)
      ⟨some "username", some ""⟩ (by simp)).1 (by decide),
    (buildPayload_classification "U" "P" _ (by decide)
      ⟨some "password", some ""⟩ (by simp)).2.1 (by decide) (by decide),
    (buildPayload_classification "U" "P" _ (by decide)
      ⟨some "csrf_token", some "abc123"⟩ (by simp)).2.2 (by decide)
      (by decide)⟩

/-- Claim C10: a field whose name contains both `"user"` and `"pass"`
(case-insensitively) is assigned the supplied username, never the
password — the `"user"` branch of the `if/elif` chain fires first. -/
theorem buildPayload_user_precedence (u p : String) (inputs : List InputTag)
    (hn : (inputs.map (fun t => t.name.getD "")).Nodup)
    (tag : InputTag) (htag : tag ∈ inputs)
    (hu : strContainsSub (pyLower (tag.name.getD "")) "user" = true)
    (hp : strContainsSub (pyLower (tag.name.getD "")) "pass" = true) :
    dictGet (buildPayload u p inputs) (tag.name.getD "") = some u := by
  have hmain := dictGet_buildPayload_aux u p inputs [] tag htag hn
  rw [buildPayload, hmain]
  simp [classifyField, hu]

/-- Witness for C10 on a field named `"user_password"`. -/
theorem buildPayload_user_precedence_witness :
    dictGet (buildPayload "U" "P" [⟨some "user_password", some "x"⟩])
      "user_password" = some "U" :=
  buildPayload_user_precedence "U" "P" [⟨some "user_password", some "x"⟩]
    (by decide) ⟨some "user_password", some "x"⟩ (by simp) (by decide)
    (by decide)

/-! ### C4: ARN extraction -/

/-- The `findArns` fold leaves its accumulator alone over attributes
that are either not the role attribute or carry no values. -/
theorem findArns_foldl_no_values (l : List SamlAttribute)
    (acc : Option String)
    (h : ∀ a ∈ l, a.name = role_url → a.values = []) :
    l.foldl
        (fun acc a =>
          if a.name = role_url then
            a.values.foldl (fun _ v => some v) acc
          else acc)
        acc = acc := by
  induction l generalizing acc with
  | nil => rfl
  | cons a t ih =>
    rw [List.foldl_cons]
    by_cases ha : a.name = role_url
    · rw [if_pos ha, h a (List.mem_cons_self _ _) ha]
      exact ih acc (fun a' ha' => h a' (List.mem_cons_of_mem _ ha'))
    · rw [if_neg ha]
      exact ih acc (fun a' ha' => h a' (List.mem_cons_of_mem _ ha'))

/-- Claim C4 fails as stated: when the role attribute carries several values
the nested loops rebind `arns` each time, so the *last* value — not
the first — is the one split into ARNs.  Concretely, with values
`["A1,B1", "A2,B2"]` the code returns `PrincipalArn = "A2"`,
`RoleArn = "B2"`, not the components of the first value. -/
theorem get_arns_counterexample :
    ¬ (∀ (attrs : List SamlAttribute) (assertion : String)
        (a : SamlAttribute) (v : String) (vs : List String) (x y : String),
        a ∈ attrs → a.name = role_url → a.values = v :: vs →
        pySplitComma v = [x, y] →
        get_arns_from_assertion attrs assertion = some ⟨y, x, assertion⟩) := by
  intro h
  have := h [⟨role_url, ["A1,B1", "A2,B2"]⟩] "tok"
    ⟨role_url, ["A1,B1", "A2,B2"]⟩ "A1,B1" ["A2,B2"] "A1" "B1"
    (by simp) rfl rfl (by decide)
  exact absurd this (by decide)

/-- Claim C4 amended: decoding splits the *last* value of the role attribute
(of the last such attribute when several match): the `PrincipalArn` is
the first comma-separated component of that value and the `RoleArn` its
second.  For an assertion whose role attribute has a single
comma-separated pair as its value — such as the fixture — this is the
first value and the reading of the claim holds. -/
theorem get_arns_uses_last_value (l₁ l₂ : List SamlAttribute)
    (vs : List String) (v assertion x y : String)
    (h₂ : ∀ a ∈ l₂, a.name = role_url → a.values = [])
    (hsplit : pySplitComma v = [x, y]) :
    get_arns_from_assertion (l₁ ++ ⟨role_url, vs ++ [v]⟩ :: l₂) assertion =
      some ⟨y, x, assertion⟩ := by
  have hfind : findArns (l₁ ++ ⟨role_url, vs ++ [v]⟩ :: l₂) = some v := by
    unfold findArns
    rw [List.foldl_append, List.foldl_cons]
    have hmid : (if (SamlAttribute.mk role_url (vs ++ [v])).name = role_url
        then (vs ++ [v]).foldl (fun _ v => some v)
          (l₁.foldl
            (fun acc a =>
              if a.name = role_url then
                a.values.foldl (fun _ v => some v) acc
              else acc)
            none)
        else (l₁.foldl
            (fun acc a =>
              if a.name = role_url then
                a.values.foldl (fun _ v => some v) acc
              else acc)
            none)) = some v := by
      rw [if_pos rfl, List.foldl_append, List.foldl_cons, List.foldl_nil]
    rw [hmid]
    exact findArns_foldl_no_values l₂ _ h₂
  unfold get_arns_from_assertion
  rw [hfind]
  simp [hsplit]

/-- Witness for C4 amended on the fixture role-attribute value. -/
theorem get_arns_uses_last_value_witness :
    get_arns_from_assertion
        [⟨role_url,
          ["arn:aws:iam::111:saml-provider/X,arn:aws:iam::111:role/Y"]⟩]
        "assertion" =
      some ⟨"arn:aws:iam::111:role/Y", "arn:aws:iam::111:saml-provider/X",
        "assertion"⟩ :=
  get_arns_uses_last_value [] [] []
    "arn:aws:iam::111:saml-provider/X,arn:aws:iam::111:role/Y" "assertion"
    "arn:aws:iam::111:saml-provider/X" "arn:aws:iam::111:role/Y"
    (by simp) (by decide)

/-! ### C5: form-submission target -/

/-- The loop over form tags leaves the submission URL alone when the
`action` of every form is absent or empty (Python-falsy). -/
theorem submitTarget_no_action (entry : String) (forms : List FormTag)
    (cur : String) (h : ∀ f ∈ forms, f.action = none ∨ f.action = some "") :
    forms.foldl (submitStep entry) cur = cur := by
  induction forms generalizing cur with
  | nil => rfl
  | cons f t ih =>
    rw [List.foldl_cons]
    have hstep : submitStep entry cur f = cur := by
      rcases h f (List.mem_cons_self _ _) with hf | hf <;>
        simp [submitStep, hf]
    rw [hstep]
    exact ih cur (fun f' hf' => h f' (List.mem_cons_of_mem _ hf'))

/-- Claim C5: when no form declares a (non-empty) `action`, the submission
target is the redirect-resolved final URL; when the login form
declares a non-empty `action` (and no later form overrides it), the
target is `scheme://netloc` of the *original* entry URL followed by
that action path. -/
theorem submitTarget_spec (entry finalUrl a : String)
    (forms pre post : List FormTag)
    (hforms : ∀ f ∈ forms, f.action = none ∨ f.action = some "")
    (hpost : ∀ f ∈ post, f.action = none ∨ f.action = some "")
    (ha : a ≠ "") :
    submitTarget entry finalUrl forms = finalUrl ∧
      submitTarget entry finalUrl (pre ++ ⟨some a⟩ :: post) =
        (urlparseSchemeNetloc entry).1 ++ "://" ++
          (urlparseSchemeNetloc entry).2 ++ a := by
  constructor
  · exact submitTarget_no_action entry forms finalUrl hforms
  · unfold submitTarget
    rw [List.foldl_append, List.foldl_cons]
    have hstep : ∀ cur, submitStep entry cur ⟨some a⟩ =
        (urlparseSchemeNetloc entry).1 ++ "://" ++
          (urlparseSchemeNetloc entry).2 ++ a := by
      intro cur
      simp [submitStep, ha]
    rw [hstep]
    exact submitTarget_no_action entry post _ hpost

/-- Witness for C5 on the example of the spec: entry URL
`https://idp.example.com/login/xyz` with form action `/auth/submit`. -/
theorem submitTarget_spec_witness :
    submitTarget "https://idp.example.com/login/xyz"
        "https://final.example.com/page" [] =
      "https://final.example.com/page" ∧
      submitTarget "https://idp.example.com/login/xyz"
          "https://final.example.com/page" [⟨some "/auth/submit"⟩] =
        "https://idp.example.com/auth/submit" := by
  have h := submitTarget_spec "https://idp.example.com/login/xyz"
    "https://final.example.com/page" "/auth/submit" [] [] []
    (by simp) (by simp) (by decide)
  exact ⟨h.1, h.2.trans (by decide)⟩

/-! ### C6 and C7: orchestrator control flow -/

/-- Claim C6: whenever a sid is available (argument or cache) but the
cookie-login page carries no `SAMLResponse`, `main` silently falls
through to the interactive password-login path: the outcome of the run is
exactly the outcome of the password path (so the missing cached-session
assertion alone never produces an exit), and `get_user_creds` runs. -/
theorem mainRun_cookie_fallback (w : MainWorld)
    (h1 : (effectiveSid w).isSome = true)
    (h2 : get_saml_assertion w.cookiePageInputs = none) :
    mainRun w = (passwordPathOutcome w, true) := by
  unfold mainRun
  cases heff : effectiveSid w with
  | none => rfl
  | some s => rw [h2]

/-- Witness for C6: an explicit `--sid` with a cookie page carrying no
`SAMLResponse` falls through to a successful password login. -/
theorem mainRun_cookie_fallback_witness :
    mainRun ⟨some "sid0", none, [], "pw", "welcome",
        [⟨some "SAMLResponse", some "tok"⟩], some "newsid",
        [⟨role_url, ["A,B"]⟩]⟩ =
      (MainOutcome.success, true) :=
  (mainRun_cookie_fallback
      ⟨some "sid0", none, [], "pw", "welcome",
        [⟨some "SAMLResponse", some "tok"⟩], some "newsid",
        [⟨role_url, ["A,B"]⟩]⟩
      (by decide) rfl).trans (by decide)

/-- Characterization of the exit code of the password path, assuming the
environment produces no uncaught exception on this path (a `sid`
cookie is present when the submission succeeds, and the assertion
decodes when one is extracted). -/
theorem passwordPath_exit_codes (w : MainWorld)
    (hsid : w.password ≠ "" →
      strContainsSub w.pwText "Sign in failed!" = false →
      w.pwSidCookie.isSome = true)
    (harn : ∀ a, get_saml_assertion w.pwInputs = some a →
      (get_arns_from_assertion w.assertionAttrs a).isSome = true) :
    (exitCodeOf (passwordPathOutcome w) = some 1 ↔
      (w.password = "" ∨ strContainsSub w.pwText "Sign in failed!" = true ∨
        get_saml_assertion w.pwInputs = none)) ∧
      (exitCodeOf (passwordPathOutcome w) = some 0 ↔
        ¬ (w.password = "" ∨
          strContainsSub w.pwText "Sign in failed!" = true ∨
          get_saml_assertion w.pwInputs = none)) := by
  by_cases hpw : w.password.length = 0
  · have hpw' : w.password = "" := by
      have hd : w.password.data.length = 0 := hpw
      exact String.ext (List.length_eq_zero.mp hd)
    simp [passwordPathOutcome, hpw, exitCodeOf, hpw']
  · have hpw' : ¬ w.password = "" := fun he => hpw (by rw [he]; rfl)
    by_cases hmk : strContainsSub w.pwText "Sign in failed!" = true
    · simp [passwordPathOutcome, hpw, hmk, exitCodeOf, hpw']
    · have hmk' : strContainsSub w.pwText "Sign in failed!" = false :=
        Bool.not_eq_true _ ▸ Bool.of_not_eq_true hmk
      obtain ⟨sc, hsc⟩ := Option.isSome_iff_exists.mp (hsid hpw' hmk')
      cases hass : get_saml_assertion w.pwInputs with
      | none =>
        simp [passwordPathOutcome, hpw, hmk', hsc, hass, exitCodeOf, hpw']
      | some a =>
        obtain ⟨arns, harns⟩ := Option.isSome_iff_exists.mp (harn a hass)
        simp [passwordPathOutcome, hpw, hmk', hsc, hass, exitCodeOf,
          finishWithAssertion, harns, hpw']

/-- The C7 characterization, given that the run takes the password
path. -/
theorem mainRun_exit_codes_core (w : MainWorld)
    (hup : usesPasswordPath w = true)
    (hmr : (mainRun w).1 = passwordPathOutcome w)
    (hsid : w.password ≠ "" →
      strContainsSub w.pwText "Sign in failed!" = false →
      w.pwSidCookie.isSome = true)
    (harn : ∀ a, get_saml_assertion w.pwInputs = some a →
      (get_arns_from_assertion w.assertionAttrs a).isSome = true) :
    (exitCodeOf (mainRun w).1 = some 1 ↔
      ((usesPasswordPath w = true ∧ w.password = "") ∨
        (usesPasswordPath w = true ∧
          strContainsSub w.pwText "Sign in failed!" = true) ∨
        finalAssertion w = none)) ∧
      (exitCodeOf (mainRun w).1 = some 0 ↔
        ¬ ((usesPasswordPath w = true ∧ w.password = "") ∨
          (usesPasswordPath w = true ∧
            strContainsSub w.pwText "Sign in failed!" = true) ∨
          finalAssertion w = none)) := by
  have hfa : finalAssertion w = get_saml_assertion w.pwInputs := by
    simp [finalAssertion, hup]
  have hiff : (w.password = "" ∨
      strContainsSub w.pwText "Sign in failed!" = true ∨
      get_saml_assertion w.pwInputs = none) ↔
      ((usesPasswordPath w = true ∧ w.password = "") ∨
        (usesPasswordPath w = true ∧
          strContainsSub w.pwText "Sign in failed!" = true) ∨
        finalAssertion w = none) := by
    rw [hfa]
    simp [hup]
  have hchar := passwordPath_exit_codes w hsid harn
  rw [hmr]
  exact ⟨hchar.1.trans hiff, hchar.2.trans (not_congr hiff)⟩

/-- Claim C7: assuming the out-of-scope failure modes do not fire (the
password response carries a `sid` cookie when consulted, and an
obtained assertion decodes), the process exits with code 1 exactly
when the password path runs and the typed password is empty, or the
password path runs and the response body contains the literal
`"Sign in failed!"` marker, or whichever path ran obtained no
`SAMLResponse` assertion; in every other case it exits 0. -/
theorem mainRun_exit_codes (w : MainWorld)
    (hsid : usesPasswordPath w = true → w.password ≠ "" →
      strContainsSub w.pwText "Sign in failed!" = false →
      w.pwSidCookie.isSome = true)
    (harn : ∀ a, finalAssertion w = some a →
      (get_arns_from_assertion w.assertionAttrs a).isSome = true) :
    (exitCodeOf (mainRun w).1 = some 1 ↔
      ((usesPasswordPath w = true ∧ w.password = "") ∨
        (usesPasswordPath w = true ∧
          strContainsSub w.pwText "Sign in failed!" = true) ∨
        finalAssertion w = none)) ∧
      (exitCodeOf (mainRun w).1 = some 0 ↔
        ¬ ((usesPasswordPath w = true ∧ w.password = "") ∨
          (usesPasswordPath w = true ∧
            strContainsSub w.pwText "Sign in failed!" = true) ∨
          finalAssertion w = none)) := by
  cases heff : effectiveSid w with
  | none =>
    have hup : usesPasswordPath w = true := by
      simp [usesPasswordPath, heff]
    have hmr : (mainRun w).1 = passwordPathOutcome w := by
      simp [mainRun, heff]
    have hfa : finalAssertion w = get_saml_assertion w.pwInputs := by
      simp [finalAssertion, hup]
    exact mainRun_exit_codes_core w hup hmr (hsid hup)
      (fun a ha => harn a (hfa ▸ ha))
  | some s =>
    cases hcook : get_saml_assertion w.cookiePageInputs with
    | none =>
      have hup : usesPasswordPath w = true := by
        simp [usesPasswordPath, heff, hcook]
      have hmr : (mainRun w).1 = passwordPathOutcome w := by
        simp [mainRun, heff, hcook]
      have hfa : finalAssertion w = get_saml_assertion w.pwInputs := by
        simp [finalAssertion, hup]
      exact mainRun_exit_codes_core w hup hmr (hsid hup)
        (fun a ha => harn a (hfa ▸ ha))
    | some a =>
      have hup : usesPasswordPath w = false := by
        simp [usesPasswordPath, heff, hcook]
      have hfa : finalAssertion w = some a := by
        simp [finalAssertion, usesPasswordPath, heff, hcook]
      obtain ⟨arns, harns⟩ := Option.isSome_iff_exists.mp (harn a hfa)
      have hmr : (mainRun w).1 = MainOutcome.success := by
        simp [mainRun, heff, hcook, finishWithAssertion, harns]
      rw [hmr, hfa]
      simp [exitCodeOf, hup]

/-- Witness for C7 on a successful password-login run: no sid
available, non-empty password, no failure marker, assertion present
and decodable — exit code 0. -/
theorem mainRun_exit_codes_witness :
    exitCodeOf (mainRun ⟨none, none, [], "pw", "welcome",
        [⟨some "SAMLResponse", some "tok"⟩], some "newsid",
        [⟨role_url, ["A,B"]⟩]⟩).1 = some 0 :=
  (mainRun_exit_codes
      ⟨none, none, [], "pw", "welcome",
        [⟨some "SAMLResponse", some "tok"⟩], some "newsid",
        [⟨role_url, ["A,B"]⟩]⟩
      (fun _ _ _ => by decide)
      (fun a ha => by
        have h : finalAssertion ⟨none, none, [], "pw", "welcome",
            [⟨some "SAMLResponse", some "tok"⟩], some "newsid",
            [⟨role_url, ["A,B"]⟩]⟩ = some "tok" := by decide
        rw [h] at ha
        injection ha with ha'
        rw [← ha']
        decide)).2.mpr (by decide)

/-! ### C9: credentials-file writer -/

/-- The five `config.set` calls of `write_aws_creds` applied to the
options of one section, in source order. -/
def setFive (sec : IniSection) (ak sk tk rg out : String) : IniSection :=
  dictInsert
    (dictInsert
      (dictInsert (dictInsert (dictInsert sec "output" out) "region" rg)
        "aws_access_key_id" ak)
      "aws_secret_access_key" sk)
    "aws_session_token" tk

/-- Python `config.set` on section `s` leaves the other-named sections of the
file untouched, in content and order. -/
theorem config_set_filter_ne (c : IniConfig) (s k v : String) :
    (config_set c s k v).filter (fun p => p.1 ≠ s) =
      c.filter (fun p => p.1 ≠ s) := by
  induction c with
  | nil => rfl
  | cons p t ih =>
    simp only [config_set, List.map_cons] at ih ⊢
    by_cases hp : p.1 = s
    · rw [if_pos hp, List.filter_cons_of_neg (by simp [hp]),
        List.filter_cons_of_neg (by simp [hp])]
      exact ih
    · rw [if_neg hp, List.filter_cons_of_pos (by simp [hp]),
        List.filter_cons_of_pos (by simp [hp])]
      rw [ih]

/-- Python `config.set` on section `s` rewrites exactly the `s`-named
sections, inserting the option into each. -/
theorem config_set_filter_eq (c : IniConfig) (s k v : String) :
    (config_set c s k v).filter (fun p => p.1 = s) =
      (c.filter (fun p => p.1 = s)).map
        (fun p => (p.1, dictInsert p.2 k v)) := by
  induction c with
  | nil => rfl
  | cons p t ih =>
    simp only [config_set, List.map_cons] at ih ⊢
    by_cases hp : p.1 = s
    · rw [if_pos hp, List.filter_cons_of_pos (by simp [hp]),
        List.filter_cons_of_pos (by simp [hp]), List.map_cons]
      rw [ih]
    · rw [if_neg hp, List.filter_cons_of_neg (by simp [hp]),
        List.filter_cons_of_neg (by simp [hp])]
      exact ih

/-- The function `add_section` leaves the other-named sections untouched. -/
theorem add_section_filter_ne (c : IniConfig) (s : String) :
    (add_section c s).filter (fun p => p.1 ≠ s) =
      c.filter (fun p => p.1 ≠ s) := by
  unfold add_section
  rw [List.filter_append]
  simp

/-- The function `add_section` appends one empty `s`-named section. -/
theorem add_section_filter_eq (c : IniConfig) (s : String) :
    (add_section c s).filter (fun p => p.1 = s) =
      c.filter (fun p => p.1 = s) ++ [(s, [])] := by
  unfold add_section
  rw [List.filter_append]
  simp

/-- A file with no `s`-named section has an empty `s`-filter. -/
theorem filter_nil_of_not_has_section (c : IniConfig) (s : String)
    (h : has_section c s = false) :
    c.filter (fun p => p.1 = s) = [] := by
  rw [List.filter_eq_nil_iff]
  intro p hp
  simp only [decide_eq_true_eq]
  intro hps
  have : has_section c s = true :=
    List.any_eq_true.mpr ⟨p, hp, by simp [hps]⟩
  rw [this] at h
  cases h

/-- A nonempty `s`-filter means the section exists. -/
theorem has_section_of_filter (c : IniConfig) (s : String)
    (sec : IniSection) (l : IniConfig)
    (h : c.filter (fun p => p.1 = s) = (s, sec) :: l) :
    has_section c s = true := by
  have hm : (s, sec) ∈ c.filter (fun p => p.1 = s) := by
    rw [h]
    exact List.mem_cons_self _ _
  exact List.any_eq_true.mpr ⟨(s, sec), List.mem_of_mem_filter hm, by simp⟩

/-- In a file whose section names are pairwise distinct (as any file
`configparser` parses), at most one section is named `s`. -/
theorem filter_single_of_nodup (c : IniConfig) (s : String)
    (h : (c.map Prod.fst).Nodup) :
    c.filter (fun p => p.1 = s) = [] ∨
      ∃ s0, c.filter (fun p => p.1 = s) = [(s, s0)] := by
  induction c with
  | nil => exact Or.inl rfl
  | cons p t ih =>
    rw [List.map_cons, List.nodup_cons] at h
    by_cases hp : p.1 = s
    · right
      refine ⟨p.2, ?_⟩
      rw [List.filter_cons, if_pos (by simp [hp])]
      have ht : t.filter (fun q => q.1 = s) = [] := by
        rw [List.filter_eq_nil_iff]
        intro q hq
        simp only [decide_eq_true_eq]
        intro hqs
        exact h.1 (hp ▸ hqs ▸ List.mem_map_of_mem Prod.fst hq)
      rw [ht]
      have : p = (s, p.2) := by
        cases p
        simp_all
      rw [← this]
    · rw [List.filter_cons, if_neg (by simp [hp])]
      exact ih h.2

/-- One `write_aws_creds` call: the other-named sections are untouched,
and the `profile`-named part of the file becomes exactly one section
holding the five freshly-set options over the prior content ( `[]`
when the section did not exist). -/
theorem write_aws_creds_filter (c : IniConfig)
    (profile ak sk tk rg out : String) :
    ((write_aws_creds c profile ak sk tk rg out).filter
        (fun p => p.1 ≠ profile) =
      c.filter (fun p => p.1 ≠ profile)) ∧
      (c.filter (fun p => p.1 = profile) = [] →
        (write_aws_creds c profile ak sk tk rg out).filter
            (fun p => p.1 = profile) =
          [(profile, setFive [] ak sk tk rg out)]) ∧
      (∀ s0, c.filter (fun p => p.1 = profile) = [(profile, s0)] →
        (write_aws_creds c profile ak sk tk rg out).filter
            (fun p => p.1 = profile) =
          [(profile, setFive s0 ak sk tk rg out)]) := by
  refine ⟨?_, ?_, ?_⟩
  · unfold write_aws_creds
    rw [config_set_filter_ne, config_set_filter_ne, config_set_filter_ne,
      config_set_filter_ne, config_set_filter_ne]
    by_cases hh : has_section c profile = true
    · rw [if_pos hh]
    · rw [if_neg hh, add_section_filter_ne]
  · intro hnil
    have hh : has_section c profile = false := by
      cases hhs : has_section c profile with
      | false => rfl
      | true =>
        obtain ⟨p, hp, hps⟩ := List.any_eq_true.mp hhs
        have : p ∈ c.filter (fun q => q.1 = profile) :=
          List.mem_filter.mpr ⟨hp, hps⟩
        rw [hnil] at this
        cases this
    unfold write_aws_creds
    rw [if_neg (by rw [hh]; exact Bool.false_ne_true),
      config_set_filter_eq, config_set_filter_eq, config_set_filter_eq,
      config_set_filter_eq, config_set_filter_eq, add_section_filter_eq,
      hnil]
    rfl
  · intro s0 hone
    have hh : has_section c profile = true :=
      has_section_of_filter c profile s0 [] hone
    unfold write_aws_creds
    rw [if_pos hh, config_set_filter_eq, config_set_filter_eq,
      config_set_filter_eq, config_set_filter_eq, config_set_filter_eq,
      hone]
    rfl

/-- The five freshly-set options read back as written, and every other
option of the section is untouched. -/
theorem setFive_fields (s0 : IniSection) (ak sk tk rg out : String) :
    dictGet (setFive s0 ak sk tk rg out) "output" = some out ∧
      dictGet (setFive s0 ak sk tk rg out) "region" = some rg ∧
      dictGet (setFive s0 ak sk tk rg out) "aws_access_key_id" = some ak ∧
      dictGet (setFive s0 ak sk tk rg out) "aws_secret_access_key" =
        some sk ∧
      dictGet (setFive s0 ak sk tk rg out) "aws_session_token" = some tk ∧
      (∀ key, key ∉ ["output", "region", "aws_access_key_id",
          "aws_secret_access_key", "aws_session_token"] →
        dictGet (setFive s0 ak sk tk rg out) key = dictGet s0 key) := by
  unfold setFive
  refine ⟨?_, ?_, ?_, ?_, ?_, ?_⟩
  · rw [dictGet_dictInsert_ne _ _ _ _ (by decide),
      dictGet_dictInsert_ne _ _ _ _ (by decide),
      dictGet_dictInsert_ne _ _ _ _ (by decide),
      dictGet_dictInsert_ne _ _ _ _ (by decide),
      dictGet_dictInsert_same]
  · rw [dictGet_dictInsert_ne _ _ _ _ (by decide),
      dictGet_dictInsert_ne _ _ _ _ (by decide),
      dictGet_dictInsert_ne _ _ _ _ (by decide),
      dictGet_dictInsert_same]
  · rw [dictGet_dictInsert_ne _ _ _ _ (by decide),
      dictGet_dictInsert_ne _ _ _ _ (by decide),
      dictGet_dictInsert_same]
  · rw [dictGet_dictInsert_ne _ _ _ _ (by decide),
      dictGet_dictInsert_same]
  · rw [dictGet_dictInsert_same]
  · intro key hkey
    simp only [List.mem_cons, List.not_mem_nil, or_false, not_or] at hkey
    obtain ⟨h1, h2, h3, h4, h5⟩ := hkey
    rw [dictGet_dictInsert_ne _ _ _ _ h5, dictGet_dictInsert_ne _ _ _ _ h4,
      dictGet_dictInsert_ne _ _ _ _ h3, dictGet_dictInsert_ne _ _ _ _ h2,
      dictGet_dictInsert_ne _ _ _ _ h1]

/-- Claim C9: on any credentials file with distinct section names,
`write_aws_creds` creates the profile section if absent, sets exactly
the five options `output`, `region`, `aws_access_key_id`,
`aws_secret_access_key` and `aws_session_token` there (all other
options of the section and all other sections are unchanged), and a
second write to the same profile leaves exactly one section of that
name holding the values of the second call, with other sections still
unchanged. -/
theorem write_aws_creds_spec (c : IniConfig)
    (profile ak sk tk rg out ak2 sk2 tk2 rg2 out2 : String)
    (hnodup : (c.map Prod.fst).Nodup) :
    ((write_aws_creds c profile ak sk tk rg out).filter
        (fun p => p.1 ≠ profile) = c.filter (fun p => p.1 ≠ profile)) ∧
      (∃ sec, (write_aws_creds c profile ak sk tk rg out).filter
          (fun p => p.1 = profile) = [(profile, sec)] ∧
        dictGet sec "output" = some out ∧
        dictGet sec "region" = some rg ∧
        dictGet sec "aws_access_key_id" = some ak ∧
        dictGet sec "aws_secret_access_key" = some sk ∧
        dictGet sec "aws_session_token" = some tk ∧
        (∀ key, key ∉ ["output", "region", "aws_access_key_id",
            "aws_secret_access_key", "aws_session_token"] →
          dictGet sec key =
            (match c.filter (fun p => p.1 = profile) with
              | [] => none
              | p0 :: _ => dictGet p0.2 key))) ∧
      (∃ sec2, (write_aws_creds (write_aws_creds c profile ak sk tk rg out)
            profile ak2 sk2 tk2 rg2 out2).filter (fun p => p.1 = profile) =
          [(profile, sec2)] ∧
        dictGet sec2 "output" = some out2 ∧
        dictGet sec2 "region" = some rg2 ∧
        dictGet sec2 "aws_access_key_id" = some ak2 ∧
        dictGet sec2 "aws_secret_access_key" = some sk2 ∧
        dictGet sec2 "aws_session_token" = some tk2) ∧
      ((write_aws_creds (write_aws_creds c profile ak sk tk rg out)
          profile ak2 sk2 tk2 rg2 out2).filter (fun p => p.1 ≠ profile) =
        c.filter (fun p => p.1 ≠ profile)) := by
  obtain ⟨hne, hempty, hone⟩ := write_aws_creds_filter c profile ak sk tk rg out
  obtain ⟨hne2, hempty2, hone2⟩ :=
    write_aws_creds_filter (write_aws_creds c profile ak sk tk rg out)
      profile ak2 sk2 tk2 rg2 out2
  rcases filter_single_of_nodup c profile hnodup with hnil | ⟨s0, hs0⟩
  · have h1 := hempty hnil
    have hf := setFive_fields ([] : IniSection) ak sk tk rg out
    have h2 := hone2 _ h1
    have hf2 := setFive_fields (setFive [] ak sk tk rg out) ak2 sk2 tk2 rg2 out2
    refine ⟨hne,
      ⟨setFive [] ak sk tk rg out, h1, hf.1, hf.2.1, hf.2.2.1, hf.2.2.2.1,
        hf.2.2.2.2.1, ?_⟩,
      ⟨setFive (setFive [] ak sk tk rg out) ak2 sk2 tk2 rg2 out2, h2,
        hf2.1, hf2.2.1, hf2.2.2.1, hf2.2.2.2.1, hf2.2.2.2.2.1⟩,
      by rw [hne2, hne]⟩
    intro key hkey
    rw [hf.2.2.2.2.2 key hkey, hnil]
    rfl
  · have h1 := hone s0 hs0
    have hf := setFive_fields s0 ak sk tk rg out
    have h2 := hone2 _ h1
    have hf2 := setFive_fields (setFive s0 ak sk tk rg out) ak2 sk2 tk2 rg2 out2
    refine ⟨hne,
      ⟨setFive s0 ak sk tk rg out, h1, hf.1, hf.2.1, hf.2.2.1, hf.2.2.2.1,
        hf.2.2.2.2.1, ?_⟩,
      ⟨setFive (setFive s0 ak sk tk rg out) ak2 sk2 tk2 rg2 out2, h2,
        hf2.1, hf2.2.1, hf2.2.2.1, hf2.2.2.2.1, hf2.2.2.2.2.1⟩,
      by rw [hne2, hne]⟩
    intro key hkey
    rw [hf.2.2.2.2.2 key hkey, hs0]

/-- Witness for C9: writing the `saml` profile into a file holding only
a `default` section leaves that section byte-for-byte intact. -/
theorem write_aws_creds_spec_witness :
    (write_aws_creds [("default", [("aws_access_key_id", "OLD")])] "saml"
        "AK" "SK" "TK" "us-west-2" "json").filter
      (fun p => p.1 ≠ "saml") =
      [("default", [("aws_access_key_id", "OLD")])] := by
  have h := (write_aws_creds_spec
    [("default", [("aws_access_key_id", "OLD")])] "saml"
    "AK" "SK" "TK" "us-west-2" "json"
    "AK2" "SK2" "TK2" "eu-west-1" "text" (by decide)).1
  rw [h]
  decide

end OktaAwsLogin
